import Mathlib

/-!
Verification of the Connect4 game-logic core (src/src/Connect4.tsx) against its
natural-language specification.

The board is embedded as a list of rows, each row a list of cells.  A cell is
`Option Player` (`none` models the source's `null`).  JavaScript array indexing
`board[r][c]` can also yield `undefined` (out of range); we model an indexing
read as `Option Cell`, where the outer `none` is `undefined`, `some none` is a
stored `null` (an Empty cell), and `some (some p)` is a stored player token.
-/

set_option maxHeartbeats 1000000

namespace Connect4

/-- The two token colours; the source writes them as the strings '🔴' and '🟡'. -/
inductive Player where
  | red : Player
  | yellow : Player
deriving DecidableEq, Repr

/-- A cell of the board: `null` (Empty) or a player's token. -/
abbrev Cell := Option Player

/-- `Board` is the source's `Player[][]`: a list of rows of cells. -/
abbrev Board := List (List Cell)

/-- `ROWS = 6` in the source. -/
def ROWS : Nat := 6

/-- `COLS = 7` in the source. -/
def COLS : Nat := 7

/-- JavaScript indexed read `board[r][c]`: `none` when the access is out of
range (JS `undefined`, which also covers negative indices), otherwise the
stored cell. -/
def jsGet (b : Board) (r c : Int) : Option Cell :=
  if 0 ≤ r ∧ 0 ≤ c then (b.get? r.toNat).bind (fun row => row.get? c.toNat) else none

/-- A well-formed board: 6 rows of 7 cells, as built by `initializeBoard`. -/
def WF (b : Board) : Prop :=
  b.length = 6 ∧ ∀ row ∈ b, row.length = 7

instance (b : Board) : Decidable (WF b) := by
  unfold WF; exact inferInstance

/-- `initializeBoard` from the source: 6 rows of 7 `null` cells. -/
def initializeBoard : Board :=
  List.replicate ROWS (List.replicate COLS (none : Cell))

/-- The copy `board.map(row => [...row])` used before every simulation and
mutation in the source: a fresh array of fresh row arrays with the same cells. -/
def copyBoard (b : Board) : Board :=
  b.map (fun row => row.map (fun cell => cell))

/-- Writing a value into one cell of one row (the JS `board[r][c] = v` on an
in-range index). Out-of-range indices leave the board unchanged; the source
only writes at indices returned by `getLowestEmptyRow`, which are in range. -/
def setCell (b : Board) (r c : Nat) (v : Cell) : Board :=
  b.set r (((b.get? r).getD []).set c v)

/-- The source's `board.every(r => r.every(c => c !== null))` full-board test. -/
def boardFull (b : Board) : Prop :=
  ∀ row ∈ b, ∀ cell ∈ row, cell ≠ none

instance (b : Board) : Decidable (boardFull b) := by
  unfold boardFull; exact inferInstance

/-- `getLowestEmptyRow` from the source: scan rows 5,4,3,2,1,0 and return the
first whose cell in column `col` is `null` (strict equality, so an
out-of-range `undefined` read does not match); `-1` when none is. The source's
`for (let row = ROWS - 1; row >= 0; row--)` loop is unrolled over the six
fixed row indices. -/
def getLowestEmptyRow (b : Board) (col : Int) : Int :=
  if jsGet b 5 col = some none then 5
  else if jsGet b 4 col = some none then 4
  else if jsGet b 3 col = some none then 3
  else if jsGet b 2 col = some none then 2
  else if jsGet b 1 col = some none then 1
  else if jsGet b 0 col = some none then 0
  else -1

/-- Specification of `getLowestEmptyRow`: either every row of the column is
non-Empty and the result is `-1`, or the result is the largest in-range row
index whose cell is Empty. -/
def lowestEmptyRowSpec (b : Board) (col : Int) : Prop :=
  (getLowestEmptyRow b col = -1 ∧
    ∀ r : Int, 0 ≤ r → r < 6 → jsGet b r col ≠ some none) ∨
  (0 ≤ getLowestEmptyRow b col ∧ getLowestEmptyRow b col < 6 ∧
    jsGet b (getLowestEmptyRow b col) col = some none ∧
    ∀ r : Int, getLowestEmptyRow b col < r → r < 6 → jsGet b r col ≠ some none)

/-- The condition of the walking loop in `checkWinner` and `checkWinnerStatic`:
`r >= 0 && r < ROWS && c >= 0 && c < COLS && board[r][c] === player`. -/
def goodCell (b : Board) (p : Player) (r c : Int) : Prop :=
  0 ≤ r ∧ r < 6 ∧ 0 ≤ c ∧ c < 7 ∧ jsGet b r c = some (some p)

instance (b : Board) (p : Player) (r c : Int) : Decidable (goodCell b p r c) := by
  unfold goodCell; exact inferInstance

/-- Fuel bound for the walking loops.  On a 6×7 board a walk along any of the
source's direction vectors (each with a ±1 component) stays in bounds for at
most 7 steps, so 13 steps of fuel make the bounded recursion equal to the
source's unbounded `while` loop. -/
def walkFuel : Nat := 13

/-- The inner `while` loop of `checkWinner`: starting at `(r, c)` and stepping
by `(dr, dc)`, collect the visited coordinates while the loop condition holds. -/
def walk (b : Board) (p : Player) (dr dc : Int) (r c : Int) : Nat → List (Int × Int)
  | 0 => []
  | Nat.succ n =>
      if goodCell b p r c then (r, c) :: walk b p dr dc (r + dr) (c + dc) n else []

/-- The inner `while` loop of `checkWinnerStatic`: same walk, but only counting
the visited cells. -/
def countWalk (b : Board) (p : Player) (dr dc : Int) (r c : Int) : Nat → Nat
  | 0 => 0
  | Nat.succ n =>
      if goodCell b p r c then 1 + countWalk b p dr dc (r + dr) (c + dc) n else 0

/-- One direction pair of `checkWinner`: the candidate line is the placed cell
followed by the walk along `(dr, dc)` and then the walk along `(-dr, -dc)`,
exactly as the source pushes coordinates onto `line`. -/
def lineFor (b : Board) (p : Player) (row col dr dc : Int) : List (Int × Int) :=
  (row, col) ::
    (walk b p dr dc (row + dr) (col + dc) walkFuel ++
      walk b p (-dr) (-dc) (row - dr) (col - dc) walkFuel)

/-- One direction pair of `checkWinnerStatic`: `count` starts at 1 and both
opposite walks add their visited cells. -/
def axisCount (b : Board) (p : Player) (row col dr dc : Int) : Nat :=
  1 + countWalk b p dr dc (row + dr) (col + dc) walkFuel +
    countWalk b p (-dr) (-dc) (row - dr) (col - dc) walkFuel

/-- `checkWinner` from the source.  The loop over the literal `directions`
array `[[0,1],[0,-1]], [[1,0],[-1,0]], [[1,1],[-1,-1]], [[1,-1],[-1,1]]` is
unrolled; each pair is the vector `(dr, dc)` and its negation.  The first
direction whose candidate line has length ≥ 4 is returned; with an Empty (or
out-of-range) placed cell the function returns `null`. -/
def checkWinner (b : Board) (row col : Int) : Option (List (Int × Int)) :=
  match jsGet b row col with
  | some (some player) =>
      let l1 := lineFor b player row col 0 1
      if 4 ≤ l1.length then some l1 else
      let l2 := lineFor b player row col 1 0
      if 4 ≤ l2.length then some l2 else
      let l3 := lineFor b player row col 1 1
      if 4 ≤ l3.length then some l3 else
      let l4 := lineFor b player row col 1 (-1)
      if 4 ≤ l4.length then some l4 else
      none
  | _ => none

/-- `checkWinnerStatic` from the source: identical direction scan, but it only
reports whether some direction reaches a count of 4. -/
def checkWinnerStatic (b : Board) (row col : Int) : Bool :=
  match jsGet b row col with
  | some (some player) =>
      decide (4 ≤ axisCount b player row col 0 1) ||
      decide (4 ≤ axisCount b player row col 1 0) ||
      decide (4 ≤ axisCount b player row col 1 1) ||
      decide (4 ≤ axisCount b player row col 1 (-1))
  | _ => false

/-- The four axis vectors of the win detector (each checked together with its
negation). -/
def axes : List (Int × Int) := [(0, 1), (1, 0), (1, 1), (1, -1)]

/-- Specification of one axis: some contiguous run of cells equal to `p`
extends `a` cells one way and `a'` cells the other way from `(row, col)`, for
a total of `1 + a + a' ≥ 4` same-valued collinear contiguous cells. -/
def axisSpec (b : Board) (p : Player) (row col dr dc : Int) : Prop :=
  ∃ a a' : Nat, 3 ≤ a + a' ∧
    (∀ i : Nat, 1 ≤ i → i ≤ a → goodCell b p (row + i * dr) (col + i * dc)) ∧
    (∀ i : Nat, 1 ≤ i → i ≤ a' → goodCell b p (row - i * dr) (col - i * dc))

/-- Specification of the win condition at a coordinate: the cell holds a
player token and along one of the four axes at least four collinear,
contiguous, same-valued cells run through the coordinate. -/
def hasLineThrough (b : Board) (row col : Int) : Prop :=
  ∃ p : Player, jsGet b row col = some (some p) ∧
    ∃ d ∈ axes, axisSpec b p row col d.1 d.2

/-- Conclusion of claim C1: `checkWinner` returns a line of length ≥ 4 exactly
when such a line exists through the coordinate, and returns `null` otherwise. -/
def checkWinnerMeetsSpec (b : Board) (row col : Int) : Prop :=
  ((∃ l, checkWinner b row col = some l ∧ 4 ≤ l.length) ↔ hasLineThrough b row col) ∧
  (¬ hasLineThrough b row col → checkWinner b row col = none)

/-- The source's `botPlayer === '🔴' ? '🟡' : '🔴'`. -/
def opponentOf (p : Player) : Player :=
  if p = Player.red then Player.yellow else Player.red

/-- One scanning tier of `getBotMove` (used for both the win tier and the
block tier, which run the same loop with different players): for each column
in order, copy the board, find the landing row, place `p` there on the copy
and test for a win; return the first winning column.  The board component of
the result is the authoritative board after the loop — every write in the
loop targets the fresh copy `testBoard`, so the input board is passed through. -/
def winScanSt (b : Board) (p : Player) : List Nat → Option Nat × Board
  | [] => (none, b)
  | col :: rest =>
      let testBoard := copyBoard b
      let row := getLowestEmptyRow testBoard (col : Int)
      if row ≠ -1 then
        let testBoard2 := setCell testBoard row.toNat col (some p)
        if checkWinnerStatic testBoard2 row (col : Int) then (some col, b)
        else winScanSt b p rest
      else winScanSt b p rest

/-- The source's `centerCols = [3, 2, 4, 1, 5, 0, 6]` preference order. -/
def centerCols : List Nat := [3, 2, 4, 1, 5, 0, 6]

/-- The positional-preference tier of `getBotMove`: first column of the given
order that has a valid drop. -/
def centerScan (b : Board) : List Nat → Option Nat
  | [] => none
  | col :: rest =>
      if getLowestEmptyRow b (col : Int) ≠ -1 then some col else centerScan b rest

/-- The `validCols` array computed by the random-fallback tier of `getBotMove`. -/
def validCols (b : Board) : List Nat :=
  (List.range 7).filter (fun col => decide (getLowestEmptyRow b (col : Int) ≠ -1))

/-- `getBotMove` from the source, with the authoritative board threaded
through the tiers: win tier, block tier, positional tier.  A `none` result
models reaching the final random-fallback tier, whose choice among
`validCols` is the only nondeterministic point of the function. -/
def getBotMoveSt (b : Board) (botPlayer : Player) : Option Nat × Board :=
  match winScanSt b botPlayer (List.range 7) with
  | (some col, b1) => (some col, b1)
  | (none, b1) =>
      match winScanSt b1 (opponentOf botPlayer) (List.range 7) with
      | (some col, b2) => (some col, b2)
      | (none, b2) =>
          match centerScan b2 centerCols with
          | some col => (some col, b2)
          | none => (none, b2)

/-- The column chosen by `getBotMove` (`none` = random fallback reached). -/
def getBotMove (b : Board) (botPlayer : Player) : Option Nat :=
  (getBotMoveSt b botPlayer).1

/-- Column `col` is a legal drop for `p` that completes four-in-a-row, i.e.
the exact per-column test of the win/block tiers of `getBotMove`. -/
def WinDrop (b : Board) (p : Player) (col : Nat) : Prop :=
  getLowestEmptyRow b (col : Int) ≠ -1 ∧
  checkWinnerStatic (setCell b (getLowestEmptyRow b (col : Int)).toNat col (some p))
    (getLowestEmptyRow b (col : Int)) (col : Int) = true

instance (b : Board) (p : Player) (col : Nat) : Decidable (WinDrop b p col) := by
  unfold WinDrop; exact inferInstance

/-- The source's `GameMode` type. -/
inductive GameMode where
  | twoPlayer : GameMode
  | singlePlayer : GameMode
deriving DecidableEq, Repr

/-- The source's `GameState` record. -/
structure GameState where
  board : Board
  currentPlayer : Cell
  winner : Cell
  winningLine : Option (List (Int × Int))
  gameMode : GameMode
  isBotThinking : Bool
  animatingPiece : Option (Nat × Nat)
deriving DecidableEq, Repr

/-- `dropPiece` from the source, as the end-to-end state transition of one
accepted or rejected human move (the transient animating state set before the
600 ms timeout and cleared inside it is folded into the single transition).
Rejections — a recorded winner, bot thinking, an animation in flight, or a
column with no empty cell — leave the state untouched. -/
def dropPiece (g : GameState) (col : Int) : GameState :=
  if g.winner ≠ none ∨ g.isBotThinking = true ∨ g.animatingPiece ≠ none then g
  else
    let newBoard := copyBoard g.board
    let row := getLowestEmptyRow newBoard col
    if row = -1 then g
    else
      let newBoard2 := setCell newBoard row.toNat col.toNat g.currentPlayer
      let winningLine := checkWinner newBoard2 row col
      let nextPlayer : Cell :=
        if g.currentPlayer = some Player.red then some Player.yellow
        else some Player.red
      let isGameOver := winningLine ≠ none ∨ boardFull newBoard2
      { g with
        board := newBoard2,
        currentPlayer := nextPlayer,
        winner := if winningLine ≠ none then g.currentPlayer else none,
        winningLine := winningLine,
        animatingPiece := none,
        isBotThinking := decide (g.gameMode = GameMode.singlePlayer) &&
          !(decide isGameOver) && decide (nextPlayer = some Player.yellow) }

/-- `resetGame` from the source: fresh board, red to move, winner and line
cleared, bot and animation flags cleared, `gameMode` kept by the spread. -/
def resetGame (g : GameState) : GameState :=
  { g with
    board := initializeBoard,
    currentPlayer := some Player.red,
    winner := none,
    winningLine := none,
    isBotThinking := false,
    animatingPiece := none }

/-- Column `k` is the first column of the preference order `[3,2,4,1,5,0,6]`
that currently has a valid drop. -/
def firstLegalPref (b : Board) (k : Nat) : Prop :=
  ∃ l1 l2, centerCols = l1 ++ k :: l2 ∧ getLowestEmptyRow b (k : Int) ≠ -1 ∧
    ∀ j ∈ l1, getLowestEmptyRow b (j : Int) = -1

/-- Concrete board of the spec's column-3 scenario: three red tokens stacked
in column 3 at rows 5, 4, 3; everything else Empty. -/
def c9Board : Board :=
  [List.replicate 7 none,
   List.replicate 7 none,
   List.replicate 7 none,
   [none, none, none, some Player.red, none, none, none],
   [none, none, none, some Player.red, none, none, none],
   [none, none, none, some Player.red, none, none, none]]

/-- Game state of the column-3 scenario: red to move on `c9Board`, no winner
yet, nothing in flight. -/
def c9State : GameState :=
  { board := c9Board,
    currentPlayer := some Player.red,
    winner := none,
    winningLine := none,
    gameMode := GameMode.singlePlayer,
    isBotThinking := false,
    animatingPiece := none }

/-- A board holding a completed vertical line: red at column 3, rows 2–5. -/
def vertFourBoard : Board :=
  [List.replicate 7 none,
   List.replicate 7 none,
   [none, none, none, some Player.red, none, none, none],
   [none, none, none, some Player.red, none, none, none],
   [none, none, none, some Player.red, none, none, none],
   [none, none, none, some Player.red, none, none, none]]

/-- A finished state: red has won on `vertFourBoard`. -/
def wonState : GameState :=
  { board := vertFourBoard,
    currentPlayer := some Player.yellow,
    winner := some Player.red,
    winningLine := some [(2, 3), (3, 3), (4, 3), (5, 3)],
    gameMode := GameMode.twoPlayer,
    isBotThinking := false,
    animatingPiece := none }

lemma getLowestEmptyRow_cases (b : Board) (col : Int) : lowestEmptyRowSpec b col := by
  unfold lowestEmptyRowSpec getLowestEmptyRow
  split_ifs with h5 h4 h3 h2 h1 h0
  · exact Or.inr ⟨by norm_num, by norm_num, h5, by intro r hrlo hr6; omega⟩
  · exact Or.inr ⟨by norm_num, by norm_num, h4, by
      intro r hrlo hr6; interval_cases r; assumption⟩
  · exact Or.inr ⟨by norm_num, by norm_num, h3, by
      intro r hrlo hr6; interval_cases r <;> assumption⟩
  · exact Or.inr ⟨by norm_num, by norm_num, h2, by
      intro r hrlo hr6; interval_cases r <;> assumption⟩
  · exact Or.inr ⟨by norm_num, by norm_num, h1, by
      intro r hrlo hr6; interval_cases r <;> assumption⟩
  · exact Or.inr ⟨by norm_num, by norm_num, h0, by
      intro r hrlo hr6; interval_cases r <;> assumption⟩
  · exact Or.inl ⟨rfl, by intro r hr0 hr6; interval_cases r <;> assumption⟩

/-- Out-of-range column indices on a well-formed board never read a stored
`null`, hence the scan returns `-1`. -/
lemma jsGet_out_of_range (b : Board) (hwf : WF b) (r c : Int)
    (hc : c < 0 ∨ 7 ≤ c) : jsGet b r c ≠ some none := by
  intro h
  unfold jsGet at h
  split_ifs at h with hpos
  · obtain ⟨hr0, hc0⟩ := hpos
    rcases hc with hneg | hbig
    · omega
    · obtain ⟨row, hrow, hcell⟩ := Option.bind_eq_some.mp h
      have hmem : row ∈ b := List.get?_mem hrow
      have hlen : row.length = 7 := hwf.2 row hmem
      have : row.get? c.toNat = none := by
        rw [List.get?_eq_none, hlen]
        omega
      rw [this] at hcell
      exact Option.noConfusion hcell

lemma getLowestEmptyRow_out_of_range (b : Board) (hwf : WF b) (col : Int)
    (hc : col < 0 ∨ 7 ≤ col) : getLowestEmptyRow b col = -1 := by
  unfold getLowestEmptyRow
  split_ifs with h5 h4 h3 h2 h1 h0 <;>
    first
      | rfl
      | exact absurd (by assumption) (jsGet_out_of_range b hwf _ col hc)

lemma walk_sound (b : Board) (p : Player) (dr dc : Int) :
    ∀ (n : Nat) (r c : Int) (k : Nat), k < (walk b p dr dc r c n).length →
      goodCell b p (r + k * dr) (c + k * dc) := by
  intro n
  induction n with
  | zero => intro r c k h; simp [walk] at h
  | succ n ih =>
    intro r c k h
    rw [walk] at h
    by_cases hg : goodCell b p r c
    · rw [if_pos hg] at h
      simp only [List.length_cons] at h
      cases k with
      | zero => simpa using hg
      | succ k =>
        have h' : k < (walk b p dr dc (r + dr) (c + dc) n).length := by omega
        have hmain := ih (r + dr) (c + dc) k h'
        have e1 : r + dr + (k : Int) * dr = r + ((k : Int) + 1) * dr := by ring
        have e2 : c + dc + (k : Int) * dc = c + ((k : Int) + 1) * dc := by ring
        rw [e1, e2] at hmain
        push_cast
        exact hmain
    · rw [if_neg hg] at h
      simp at h

lemma walk_complete (b : Board) (p : Player) (dr dc : Int) :
    ∀ (m n : Nat) (r c : Int), m ≤ n →
      (∀ k : Nat, k < m → goodCell b p (r + k * dr) (c + k * dc)) →
      m ≤ (walk b p dr dc r c n).length := by
  intro m
  induction m with
  | zero => intro n r c _ _; omega
  | succ m ih =>
    intro n r c hmn hk
    cases n with
    | zero => omega
    | succ n =>
      have h0 : goodCell b p r c := by simpa using hk 0 (by omega)
      rw [walk, if_pos h0]
      simp only [List.length_cons]
      have hrest : m ≤ (walk b p dr dc (r + dr) (c + dc) n).length := by
        refine ih n (r + dr) (c + dc) (by omega) ?_
        intro k hkm
        have hmain := hk (k + 1) (by omega)
        have e1 : r + ((k : Int) + 1) * dr = r + dr + (k : Int) * dr := by ring
        have e2 : c + ((k : Int) + 1) * dc = c + dc + (k : Int) * dc := by ring
        push_cast at hmain
        rw [e1, e2] at hmain
        exact hmain
      omega

lemma good_offset_le (b : Board) (p : Player) (r c dr dc : Int) (a : Nat)
    (hr : 0 ≤ r) (hr6 : r < 6) (hc : 0 ≤ c) (hc7 : c < 7)
    (hd : dr = 1 ∨ dr = -1 ∨ dc = 1 ∨ dc = -1)
    (hg : goodCell b p (r + a * dr) (c + a * dc)) : a ≤ 6 := by
  obtain ⟨h1, h2, h3, h4, _⟩ := hg
  rcases hd with h | h | h | h <;> subst h <;>
    simp only [mul_one, mul_neg_one] at h1 h2 h3 h4 <;> omega

lemma countWalk_eq_walk_length (b : Board) (p : Player) (dr dc : Int) :
    ∀ (n : Nat) (r c : Int),
      countWalk b p dr dc r c n = (walk b p dr dc r c n).length := by
  intro n
  induction n with
  | zero => intro r c; rfl
  | succ n ih =>
    intro r c
    rw [countWalk, walk]
    by_cases hg : goodCell b p r c
    · rw [if_pos hg, if_pos hg, List.length_cons, ih]
      omega
    · rw [if_neg hg, if_neg hg]
      rfl

lemma lineFor_length (b : Board) (p : Player) (row col dr dc : Int) :
    (lineFor b p row col dr dc).length = axisCount b p row col dr dc := by
  simp only [lineFor, axisCount, List.length_cons, List.length_append,
    countWalk_eq_walk_length]
  omega

lemma axis_iff (b : Board) (p : Player) (row col dr dc : Int)
    (hr : 0 ≤ row) (hr6 : row < 6) (hc : 0 ≤ col) (hc7 : col < 7)
    (hd : dr = 1 ∨ dr = -1 ∨ dc = 1 ∨ dc = -1) :
    4 ≤ (lineFor b p row col dr dc).length ↔ axisSpec b p row col dr dc := by
  have hlen : (lineFor b p row col dr dc).length =
      1 + (walk b p dr dc (row + dr) (col + dc) walkFuel).length +
        (walk b p (-dr) (-dc) (row - dr) (col - dc) walkFuel).length := by
    simp only [lineFor, List.length_cons, List.length_append]
    omega
  constructor
  · intro h
    refine ⟨(walk b p dr dc (row + dr) (col + dc) walkFuel).length,
      (walk b p (-dr) (-dc) (row - dr) (col - dc) walkFuel).length,
      by omega, ?_, ?_⟩
    · intro i h1 hi
      have hmain := walk_sound b p dr dc walkFuel (row + dr) (col + dc) (i - 1)
        (by omega)
      have hcast : ((i - 1 : Nat) : Int) = (i : Int) - 1 := by omega
      rw [hcast] at hmain
      have e1 : row + dr + ((i : Int) - 1) * dr = row + (i : Int) * dr := by ring
      have e2 : col + dc + ((i : Int) - 1) * dc = col + (i : Int) * dc := by ring
      rw [e1, e2] at hmain
      exact hmain
    · intro i h1 hi
      have hmain := walk_sound b p (-dr) (-dc) walkFuel (row - dr) (col - dc)
        (i - 1) (by omega)
      have hcast : ((i - 1 : Nat) : Int) = (i : Int) - 1 := by omega
      rw [hcast] at hmain
      have e1 : row - dr + ((i : Int) - 1) * (-dr) = row - (i : Int) * dr := by ring
      have e2 : col - dc + ((i : Int) - 1) * (-dc) = col - (i : Int) * dc := by ring
      rw [e1, e2] at hmain
      exact hmain
  · rintro ⟨a, a', hsum, hpos, hneg⟩
    have hd' : -dr = 1 ∨ -dr = -1 ∨ -dc = 1 ∨ -dc = -1 := by
      rcases hd with h | h | h | h <;> omega
    have ha : a ≤ 6 := by
      rcases Nat.eq_zero_or_pos a with h0 | h0
      · omega
      · exact good_offset_le b p row col dr dc a hr hr6 hc hc7 hd
          (hpos a h0 (le_refl a))
    have ha' : a' ≤ 6 := by
      rcases Nat.eq_zero_or_pos a' with h0 | h0
      · omega
      · refine good_offset_le b p row col (-dr) (-dc) a' hr hr6 hc hc7 hd' ?_
        have hmain := hneg a' h0 (le_refl a')
        have e1 : row - (a' : Int) * dr = row + (a' : Int) * (-dr) := by ring
        have e2 : col - (a' : Int) * dc = col + (a' : Int) * (-dc) := by ring
        rw [e1, e2] at hmain
        exact hmain
    have hw1 : a ≤ (walk b p dr dc (row + dr) (col + dc) walkFuel).length := by
      refine walk_complete b p dr dc a walkFuel (row + dr) (col + dc)
        (by unfold walkFuel; omega) ?_
      intro k hk
      have hmain := hpos (k + 1) (by omega) (by omega)
      have e1 : row + ((k : Int) + 1) * dr = row + dr + (k : Int) * dr := by ring
      have e2 : col + ((k : Int) + 1) * dc = col + dc + (k : Int) * dc := by ring
      push_cast at hmain
      rw [e1, e2] at hmain
      exact hmain
    have hw2 : a' ≤ (walk b p (-dr) (-dc) (row - dr) (col - dc) walkFuel).length := by
      refine walk_complete b p (-dr) (-dc) a' walkFuel (row - dr) (col - dc)
        (by unfold walkFuel; omega) ?_
      intro k hk
      have hmain := hneg (k + 1) (by omega) (by omega)
      have e1 : row - ((k : Int) + 1) * dr = row - dr + (k : Int) * (-dr) := by ring
      have e2 : col - ((k : Int) + 1) * dc = col - dc + (k : Int) * (-dc) := by ring
      push_cast at hmain
      rw [e1, e2] at hmain
      exact hmain
    omega

lemma hasLineThrough_iff_disj (b : Board) (p : Player) (row col : Int)
    (hjs : jsGet b row col = some (some p)) :
    hasLineThrough b row col ↔
      (axisSpec b p row col 0 1 ∨ axisSpec b p row col 1 0 ∨
        axisSpec b p row col 1 1 ∨ axisSpec b p row col 1 (-1)) := by
  constructor
  · rintro ⟨q, hq, d, hd, hspec⟩
    rw [hjs] at hq
    have hpq : p = q := by
      have := Option.some.inj (Option.some.inj hq)
      exact this
    subst hpq
    simp only [axes, List.mem_cons, List.not_mem_nil, or_false] at hd
    rcases hd with rfl | rfl | rfl | rfl
    · exact Or.inl hspec
    · exact Or.inr (Or.inl hspec)
    · exact Or.inr (Or.inr (Or.inl hspec))
    · exact Or.inr (Or.inr (Or.inr hspec))
  · intro hor
    refine ⟨p, hjs, ?_⟩
    rcases hor with h | h | h | h
    · exact ⟨(0, 1), by simp [axes], h⟩
    · exact ⟨(1, 0), by simp [axes], h⟩
    · exact ⟨(1, 1), by simp [axes], h⟩
    · exact ⟨(1, -1), by simp [axes], h⟩

lemma checkWinner_characterization (b : Board) (row col : Int)
    (hr : 0 ≤ row) (hr6 : row < 6) (hc : 0 ≤ col) (hc7 : col < 7) :
    (checkWinner b row col = none ↔ ¬ hasLineThrough b row col) ∧
    (∀ l, checkWinner b row col = some l → 4 ≤ l.length) := by
  rcases hjs : jsGet b row col with _ | (_ | p)
  · have hnl : ¬ hasLineThrough b row col := by
      rintro ⟨p, hp, _⟩; rw [hjs] at hp; exact Option.noConfusion hp
    refine ⟨by simp [checkWinner, hjs, hnl], ?_⟩
    intro l hl
    simp [checkWinner, hjs] at hl
  · have hnl : ¬ hasLineThrough b row col := by
      rintro ⟨p, hp, _⟩
      rw [hjs] at hp
      exact Option.noConfusion (Option.some.inj hp)
    refine ⟨by simp [checkWinner, hjs, hnl], ?_⟩
    intro l hl
    simp [checkWinner, hjs] at hl
  · have h1 := axis_iff b p row col 0 1 hr hr6 hc hc7 (by norm_num)
    have h2 := axis_iff b p row col 1 0 hr hr6 hc hc7 (by norm_num)
    have h3 := axis_iff b p row col 1 1 hr hr6 hc hc7 (by norm_num)
    have h4 := axis_iff b p row col 1 (-1) hr hr6 hc hc7 (by norm_num)
    have hline := hasLineThrough_iff_disj b p row col hjs
    constructor
    · rw [hline, ← h1, ← h2, ← h3, ← h4]
      simp only [checkWinner, hjs]
      split_ifs with c1 c2 c3 c4 <;> simp_all
    · intro l hl
      simp only [checkWinner, hjs] at hl
      split_ifs at hl with c1 c2 c3 c4 <;> cases hl <;> assumption

lemma checkWinnerStatic_iff (b : Board) (row col : Int) :
    checkWinnerStatic b row col = true ↔ checkWinner b row col ≠ none := by
  rcases hjs : jsGet b row col with _ | (_ | p)
  · simp [checkWinner, checkWinnerStatic, hjs]
  · simp [checkWinner, checkWinnerStatic, hjs]
  · have e1 := lineFor_length b p row col 0 1
    have e2 := lineFor_length b p row col 1 0
    have e3 := lineFor_length b p row col 1 1
    have e4 := lineFor_length b p row col 1 (-1)
    simp only [checkWinner, checkWinnerStatic, hjs, ← e1, ← e2, ← e3, ← e4]
    split_ifs with c1 c2 c3 c4 <;> simp_all

lemma copyBoard_eq (b : Board) : copyBoard b = b := by
  simp [copyBoard]

lemma getLowestEmptyRow_ne_neg_one (b : Board) (col r : Int)
    (hr0 : 0 ≤ r) (hr6 : r < 6) (he : jsGet b r col = some none) :
    getLowestEmptyRow b col ≠ -1 := by
  rcases getLowestEmptyRow_cases b col with ⟨_, h2⟩ | ⟨h1, _, _, _⟩
  · exact absurd he (h2 r hr0 hr6)
  · intro hcon; omega

lemma winScanSt_snd (b : Board) (p : Player) :
    ∀ l : List Nat, (winScanSt b p l).2 = b := by
  intro l
  induction l with
  | nil => rfl
  | cons col rest ih =>
    simp only [winScanSt]
    split_ifs <;> simp [ih]

lemma winScanSt_cons (b : Board) (p : Player) (col : Nat) (rest : List Nat) :
    winScanSt b p (col :: rest) =
      if WinDrop b p col then (some col, b) else winScanSt b p rest := by
  by_cases h1 : getLowestEmptyRow b (col : Int) ≠ -1
  · by_cases h2 : checkWinnerStatic
        (setCell b (getLowestEmptyRow b (col : Int)).toNat col (some p))
        (getLowestEmptyRow b (col : Int)) (col : Int) = true
    · have hw : WinDrop b p col := ⟨h1, h2⟩
      simp only [winScanSt, copyBoard_eq, if_pos h1, if_pos hw, h2, if_true]
    · have hw : ¬ WinDrop b p col := fun hcon => h2 hcon.2
      simp only [winScanSt, copyBoard_eq, if_pos h1, if_neg hw]
      rw [if_neg h2]
  · have hw : ¬ WinDrop b p col := fun hcon => h1 hcon.1
    simp only [winScanSt, copyBoard_eq, if_neg h1, if_neg hw]

lemma winScanSt_pair (b : Board) (p : Player) (l : List Nat) :
    winScanSt b p l = ((winScanSt b p l).1, b) := by
  have h2 := winScanSt_snd b p l
  rcases hw : winScanSt b p l with ⟨x, y⟩
  rw [hw] at h2
  simp only at h2
  simp [h2]

lemma winScan_none_iff (b : Board) (p : Player) :
    ∀ l : List Nat, (winScanSt b p l).1 = none ↔ ∀ c ∈ l, ¬ WinDrop b p c := by
  intro l
  induction l with
  | nil => simp [winScanSt]
  | cons col rest ih =>
    rw [winScanSt_cons]
    by_cases h : WinDrop b p col
    · simp [h]
    · simp [h, ih]

lemma winScan_some_spec (b : Board) (p : Player) :
    ∀ l : List Nat, l.Sorted (· < ·) → ∀ k : Nat, (winScanSt b p l).1 = some k →
      k ∈ l ∧ WinDrop b p k ∧ ∀ j ∈ l, j < k → ¬ WinDrop b p j := by
  intro l
  induction l with
  | nil => intro _ k h; simp [winScanSt] at h
  | cons col rest ih =>
    intro hsort k h
    rw [winScanSt_cons] at h
    rw [List.sorted_cons] at hsort
    obtain ⟨hall, hsort2⟩ := hsort
    by_cases hw : WinDrop b p col
    · rw [if_pos hw] at h
      simp only at h
      cases h
      refine ⟨List.mem_cons_self col rest, hw, ?_⟩
      intro j hj hjk
      rcases List.mem_cons.mp hj with rfl | hj2
      · omega
      · have := hall j hj2
        omega
    · rw [if_neg hw] at h
      obtain ⟨hmem, hkw, hfirst⟩ := ih hsort2 k h
      refine ⟨List.mem_cons_of_mem col hmem, hkw, ?_⟩
      intro j hj hjk
      rcases List.mem_cons.mp hj with rfl | hj2
      · exact hw
      · exact hfirst j hj2 hjk

lemma centerScan_none_iff (b : Board) :
    ∀ l : List Nat, centerScan b l = none ↔
      ∀ c ∈ l, getLowestEmptyRow b (c : Int) = -1 := by
  intro l
  induction l with
  | nil => simp [centerScan]
  | cons col rest ih =>
    rw [centerScan]
    by_cases h : getLowestEmptyRow b (col : Int) ≠ -1
    · simp [h]
    · push_neg at h
      simp [h, ih]

lemma centerScan_some_spec (b : Board) :
    ∀ (l : List Nat) (k : Nat), centerScan b l = some k →
      ∃ l1 l2, l = l1 ++ k :: l2 ∧ getLowestEmptyRow b (k : Int) ≠ -1 ∧
        ∀ j ∈ l1, getLowestEmptyRow b (j : Int) = -1 := by
  intro l
  induction l with
  | nil => intro k h; simp [centerScan] at h
  | cons col rest ih =>
    intro k h
    rw [centerScan] at h
    by_cases hc : getLowestEmptyRow b (col : Int) ≠ -1
    · rw [if_pos hc] at h
      cases h
      exact ⟨[], rest, rfl, hc, by simp⟩
    · rw [if_neg hc] at h
      push_neg at hc
      obtain ⟨l1, l2, rfl, hk, hpre⟩ := ih k h
      refine ⟨col :: l1, l2, rfl, hk, ?_⟩
      intro j hj
      rcases List.mem_cons.mp hj with rfl | hj2
      · exact hc
      · exact hpre j hj2

lemma getBotMove_eq (b : Board) (p : Player) :
    getBotMove b p =
      match (winScanSt b p (List.range 7)).1 with
      | some col => some col
      | none =>
          match (winScanSt b (opponentOf p) (List.range 7)).1 with
          | some col => some col
          | none => centerScan b centerCols := by
  have h1 := winScanSt_pair b p (List.range 7)
  have h2 := winScanSt_pair b (opponentOf p) (List.range 7)
  unfold getBotMove getBotMoveSt
  rcases ho1 : (winScanSt b p (List.range 7)).1 with _ | k
  · rw [h1, ho1]
    dsimp only
    rcases ho2 : (winScanSt b (opponentOf p) (List.range 7)).1 with _ | k2
    · rw [h2, ho2]
      dsimp only
      rcases h3 : centerScan b centerCols with _ | k3 <;> simp [h3]
    · rw [h2, ho2]
  · rw [h1, ho1]

lemma boardFull_no_empty (b : Board) (hf : boardFull b) (r c : Int) :
    jsGet b r c ≠ some none := by
  intro h
  unfold jsGet at h
  split_ifs at h with hp
  obtain ⟨row, hrow, hcell⟩ := Option.bind_eq_some.mp h
  have hrmem : row ∈ b := List.get?_mem hrow
  have hcmem : (none : Cell) ∈ row := List.get?_mem hcell
  exact hf row hrmem none hcmem rfl

/-- C1: for every 6×7 board and every in-range coordinate, `checkWinner`
returns a Line of length ≥ 4 iff at least four collinear, contiguous,
same-valued non-Empty cells run through that coordinate along one of the four
axes; otherwise it returns None. -/
theorem checkWinner_meets_spec (b : Board) (row col : Int) (_hwf : WF b)
    (hr : 0 ≤ row) (hr6 : row < 6) (hc : 0 ≤ col) (hc7 : col < 7) :
    checkWinnerMeetsSpec b row col := by
  obtain ⟨hiff, hlen⟩ := checkWinner_characterization b row col hr hr6 hc hc7
  constructor
  · constructor
    · rintro ⟨l, hl, _⟩
      by_contra hno
      rw [← hiff] at hno
      rw [hno] at hl
      exact Option.noConfusion hl
    · intro hline
      rcases hck : checkWinner b row col with _ | l
      · rw [hiff] at hck
        exact absurd hline hck
      · exact ⟨l, rfl, hlen l hck⟩
  · intro hno
    exact hiff.mpr hno

/-- Witness for C1 at a concrete board with a vertical four through (2,3). -/
theorem checkWinner_meets_spec_witness :
    WF vertFourBoard ∧ (0 : Int) ≤ 2 ∧ (2 : Int) < 6 ∧ (0 : Int) ≤ 3 ∧
      (3 : Int) < 7 ∧ checkWinnerMeetsSpec vertFourBoard 2 3 :=
  ⟨by decide, by decide, by decide, by decide, by decide,
    checkWinner_meets_spec vertFourBoard 2 3 (by decide) (by decide) (by decide)
      (by decide) (by decide)⟩

/-- C2: `getLowestEmptyRow` scans rows 5 down to 0 and returns the first
(largest) Empty row of the column, `-1` when the column has no Empty cell —
which covers both a full column and an out-of-range column index. -/
theorem getLowestEmptyRow_spec (b : Board) (col : Int) (hwf : WF b) :
    lowestEmptyRowSpec b col ∧
      ((col < 0 ∨ 7 ≤ col) → getLowestEmptyRow b col = -1) :=
  ⟨getLowestEmptyRow_cases b col,
    fun hc => getLowestEmptyRow_out_of_range b hwf col hc⟩

/-- Witness for C2 on the column-3 scenario board. -/
theorem getLowestEmptyRow_spec_witness :
    WF c9Board ∧
      (lowestEmptyRowSpec c9Board 3 ∧
        (((3 : Int) < 0 ∨ 7 ≤ (3 : Int)) → getLowestEmptyRow c9Board 3 = -1)) :=
  ⟨by decide, getLowestEmptyRow_spec c9Board 3 (by decide)⟩

/-- C3: whenever some column is a legal drop completing four-in-a-row for the
bot, `getBotMove` returns the smallest such column, regardless of the later
tiers. -/
theorem getBotMove_wins (b : Board) (p : Player)
    (h : ∃ col : Nat, col < 7 ∧ WinDrop b p col) :
    ∃ k : Nat, getBotMove b p = some k ∧ WinDrop b p k ∧
      ∀ j : Nat, j < k → ¬ WinDrop b p j := by
  have hne : (winScanSt b p (List.range 7)).1 ≠ none := by
    intro hnone
    rw [winScan_none_iff] at hnone
    obtain ⟨col, hcol, hw⟩ := h
    exact hnone col (List.mem_range.mpr hcol) hw
  rcases ho : (winScanSt b p (List.range 7)).1 with _ | k
  · exact absurd ho hne
  · have hsorted : (List.range 7).Sorted (· < ·) := by decide
    obtain ⟨hmem, hkw, hfirst⟩ := winScan_some_spec b p (List.range 7) hsorted k ho
    have hk7 : k < 7 := List.mem_range.mp hmem
    refine ⟨k, ?_, hkw, ?_⟩
    · rw [getBotMove_eq, ho]
    · intro j hj
      exact hfirst j (List.mem_range.mpr (by omega)) hj

/-- Witness for C3: red completes a vertical four at column 3. -/
theorem getBotMove_wins_witness :
    (∃ col : Nat, col < 7 ∧ WinDrop c9Board Player.red col) ∧
      (∃ k : Nat, getBotMove c9Board Player.red = some k ∧
        WinDrop c9Board Player.red k ∧
        ∀ j : Nat, j < k → ¬ WinDrop c9Board Player.red j) :=
  ⟨⟨3, by decide, by decide⟩,
    getBotMove_wins c9Board Player.red ⟨3, by decide, by decide⟩⟩

/-- C4: when the bot has no winning drop but the opponent does, `getBotMove`
returns the smallest column where the opponent would complete four-in-a-row. -/
theorem getBotMove_blocks (b : Board) (p : Player)
    (hnowin : ∀ col : Nat, col < 7 → ¬ WinDrop b p col)
    (h : ∃ col : Nat, col < 7 ∧ WinDrop b (opponentOf p) col) :
    ∃ k : Nat, getBotMove b p = some k ∧ WinDrop b (opponentOf p) k ∧
      ∀ j : Nat, j < k → ¬ WinDrop b (opponentOf p) j := by
  have h1 : (winScanSt b p (List.range 7)).1 = none := by
    rw [winScan_none_iff]
    intro c hc
    exact hnowin c (List.mem_range.mp hc)
  have hne : (winScanSt b (opponentOf p) (List.range 7)).1 ≠ none := by
    intro hnone
    rw [winScan_none_iff] at hnone
    obtain ⟨col, hcol, hw⟩ := h
    exact hnone col (List.mem_range.mpr hcol) hw
  rcases ho : (winScanSt b (opponentOf p) (List.range 7)).1 with _ | k
  · exact absurd ho hne
  · have hsorted : (List.range 7).Sorted (· < ·) := by decide
    obtain ⟨hmem, hkw, hfirst⟩ :=
      winScan_some_spec b (opponentOf p) (List.range 7) hsorted k ho
    have hk7 : k < 7 := List.mem_range.mp hmem
    refine ⟨k, ?_, hkw, ?_⟩
    · rw [getBotMove_eq, h1, ho]
    · intro j hj
      exact hfirst j (List.mem_range.mpr (by omega)) hj

/-- Witness for C4: yellow has no win on the scenario board, red would win at
column 3, so the bot blocks there. -/
theorem getBotMove_blocks_witness :
    (∀ col : Nat, col < 7 → ¬ WinDrop c9Board Player.yellow col) ∧
      (∃ col : Nat, col < 7 ∧ WinDrop c9Board (opponentOf Player.yellow) col) ∧
      (∃ k : Nat, getBotMove c9Board Player.yellow = some k ∧
        WinDrop c9Board (opponentOf Player.yellow) k ∧
        ∀ j : Nat, j < k → ¬ WinDrop c9Board (opponentOf Player.yellow) j) :=
  ⟨by decide, ⟨3, by decide, by decide⟩,
    getBotMove_blocks c9Board Player.yellow (by decide) ⟨3, by decide, by decide⟩⟩

/-- C5: when the board still has an Empty cell and neither side has an
immediate winning drop, `getBotMove` returns the first column of the
preference order `[3,2,4,1,5,0,6]` with a valid drop — in particular the
random fallback is never reached and the result is deterministic. -/
theorem getBotMove_center (b : Board) (p : Player)
    (hempty : ∃ r c : Int, 0 ≤ r ∧ r < 6 ∧ 0 ≤ c ∧ c < 7 ∧ jsGet b r c = some none)
    (hnowin : ∀ col : Nat, col < 7 → ¬ WinDrop b p col)
    (hnoblock : ∀ col : Nat, col < 7 → ¬ WinDrop b (opponentOf p) col) :
    ∃ k : Nat, getBotMove b p = some k ∧ firstLegalPref b k := by
  have h1 : (winScanSt b p (List.range 7)).1 = none := by
    rw [winScan_none_iff]
    intro c hc
    exact hnowin c (List.mem_range.mp hc)
  have h2 : (winScanSt b (opponentOf p) (List.range 7)).1 = none := by
    rw [winScan_none_iff]
    intro c hc
    exact hnoblock c (List.mem_range.mp hc)
  have hmem7 : ∀ m : Nat, m < 7 → m ∈ centerCols := by decide
  have hcne : centerScan b centerCols ≠ none := by
    intro hnone
    rw [centerScan_none_iff] at hnone
    obtain ⟨r, c, hr0, hr6, hc0, hc7, he⟩ := hempty
    have hleg : getLowestEmptyRow b c ≠ -1 :=
      getLowestEmptyRow_ne_neg_one b c r hr0 hr6 he
    have hcast : ((c.toNat : Nat) : Int) = c := by omega
    have hres := hnone c.toNat (hmem7 c.toNat (by omega))
    rw [hcast] at hres
    exact hleg hres
  rcases h3 : centerScan b centerCols with _ | k
  · exact absurd h3 hcne
  · obtain ⟨l1, l2, heq, hk, hpre⟩ := centerScan_some_spec b centerCols k h3
    refine ⟨k, ?_, l1, l2, heq, hk, hpre⟩
    rw [getBotMove_eq, h1, h2, h3]

/-- Witness for C5: on the empty board the bot deterministically picks the
center column 3. -/
theorem getBotMove_center_witness :
    (∃ r c : Int, 0 ≤ r ∧ r < 6 ∧ 0 ≤ c ∧ c < 7 ∧
        jsGet initializeBoard r c = some none) ∧
      (∀ col : Nat, col < 7 → ¬ WinDrop initializeBoard Player.yellow col) ∧
      (∀ col : Nat, col < 7 →
        ¬ WinDrop initializeBoard (opponentOf Player.yellow) col) ∧
      (∃ k : Nat, getBotMove initializeBoard Player.yellow = some k ∧
        firstLegalPref initializeBoard k) :=
  ⟨⟨5, 0, by decide, by decide, by decide, by decide, by decide⟩,
    by decide, by decide,
    getBotMove_center initializeBoard Player.yellow
      ⟨5, 0, by decide, by decide, by decide, by decide, by decide⟩
      (by decide) (by decide)⟩

/-- C6: once a winner is recorded or the board is full, `dropPiece` is a
no-op for every column: the whole game state — board, current player, winner
and winning line included — is unchanged. -/
theorem dropPiece_noop (g : GameState) (col : Int)
    (h : g.winner ≠ none ∨ boardFull g.board) :
    dropPiece g col = g := by
  unfold dropPiece
  by_cases hg : g.winner ≠ none ∨ g.isBotThinking = true ∨ g.animatingPiece ≠ none
  · rw [if_pos hg]
  · rw [if_neg hg]
    push_neg at hg
    have hfull : boardFull g.board := by
      rcases h with hw | hf
      · exact absurd hw (by simpa using hg.1)
      · exact hf
    have hrow : getLowestEmptyRow g.board col = -1 := by
      rcases getLowestEmptyRow_cases g.board col with ⟨h1, _⟩ | ⟨_, _, h3, _⟩
      · exact h1
      · exact absurd h3 (boardFull_no_empty g.board hfull _ col)
    simp only [copyBoard_eq]
    rw [if_pos hrow]

/-- Witness for C6: a move after red's recorded win leaves the state intact. -/
theorem dropPiece_noop_witness :
    (wonState.winner ≠ none ∨ boardFull wonState.board) ∧
      dropPiece wonState 0 = wonState :=
  ⟨Or.inl (by decide), dropPiece_noop wonState 0 (Or.inl (by decide))⟩

/-- C7: `resetGame` returns an all-Empty board, red (PlayerA) to move, no
winner, no winning line, while the game mode keeps its previous value. -/
theorem resetGame_spec (g : GameState) :
    (resetGame g).board = initializeBoard ∧
    (∀ row ∈ (resetGame g).board, ∀ cell ∈ row, cell = none) ∧
    (resetGame g).currentPlayer = some Player.red ∧
    (resetGame g).winner = none ∧
    (resetGame g).winningLine = none ∧
    (resetGame g).gameMode = g.gameMode := by
  refine ⟨rfl, ?_, rfl, rfl, rfl, rfl⟩
  intro row hrow cell hcell
  have hrow2 : row ∈ initializeBoard := hrow
  unfold initializeBoard at hrow2
  have hr := List.eq_of_mem_replicate hrow2
  subst hr
  exact List.eq_of_mem_replicate hcell

/-- C8: the bot's simulations only write to fresh copies, so the board handed
to `getBotMove` is unchanged when it returns: the threaded authoritative board
is returned as given, and every cell reads the same. -/
theorem getBotMove_preserves_board (b : Board) (p : Player) :
    (getBotMoveSt b p).2 = b ∧
      ∀ r c : Int, jsGet (getBotMoveSt b p).2 r c = jsGet b r c := by
  have hsnd : (getBotMoveSt b p).2 = b := by
    have hb1 := winScanSt_snd b p (List.range 7)
    unfold getBotMoveSt
    rcases hw1 : winScanSt b p (List.range 7) with ⟨o1, b1⟩
    rw [hw1] at hb1
    simp only at hb1
    rcases o1 with _ | k
    · dsimp only
      have hb2 := winScanSt_snd b1 (opponentOf p) (List.range 7)
      rcases hw2 : winScanSt b1 (opponentOf p) (List.range 7) with ⟨o2, b2⟩
      rw [hw2] at hb2
      simp only at hb2
      rcases o2 with _ | k2
      · dsimp only
        rcases centerScan b2 centerCols with _ | k3
        · dsimp only
          rw [hb2, hb1]
        · dsimp only
          rw [hb2, hb1]
      · dsimp only
        rw [hb2, hb1]
    · dsimp only
      exact hb1
  exact ⟨hsnd, fun r c => by rw [hsnd]⟩

/-- C9 (counterexample): after three stacked red tokens at rows 5, 4, 3 of
column 3, a fourth red drop there does win, but the reported Line is not the
ordered sequence [(5,3),(4,3),(3,3),(2,3)] stated by the claim. -/
theorem dropColumn3_line_order_counterexample :
    (dropPiece c9State 3).winner = some Player.red ∧
    (dropPiece c9State 3).winningLine ≠
      some [((5 : Int), (3 : Int)), (4, 3), (3, 3), (2, 3)] := by
  decide

/-- C9 (amended): with column 3 holding red at rows 5, 4, 3 and (2,3) Empty,
a fourth red drop in column 3 lands at row 2 and yields the Won outcome, with
winning Line [(2,3),(3,3),(4,3),(5,3)] — the placed cell first, then the run
extended downward, the reverse of the order the claim states. -/
theorem dropColumn3_amended :
    jsGet c9Board 5 3 = some (some Player.red) ∧
    jsGet c9Board 4 3 = some (some Player.red) ∧
    jsGet c9Board 3 3 = some (some Player.red) ∧
    jsGet c9Board 2 3 = some none ∧
    getLowestEmptyRow c9Board 3 = 2 ∧
    (dropPiece c9State 3).winner = some Player.red ∧
    jsGet (dropPiece c9State 3).board 2 3 = some (some Player.red) ∧
    (dropPiece c9State 3).winningLine =
      some [((2 : Int), (3 : Int)), (3, 3), (4, 3), (5, 3)] := by
  decide

/-- C10: for every board and in-range coordinate the boolean win test used by
the bot agrees with the line-producing win detector: `checkWinnerStatic` is
true exactly when `checkWinner` returns a line. -/
theorem checkWinnerStatic_equiv (b : Board) (row col : Int) (_hwf : WF b)
    (_hr : 0 ≤ row) (_hr6 : row < 6) (_hc : 0 ≤ col) (_hc7 : col < 7) :
    (checkWinnerStatic b row col = true ↔ checkWinner b row col ≠ none) :=
  checkWinnerStatic_iff b row col

/-- Witness for C10 at the vertical-four board. -/
theorem checkWinnerStatic_equiv_witness :
    WF vertFourBoard ∧ (0 : Int) ≤ 2 ∧ (2 : Int) < 6 ∧ (0 : Int) ≤ 3 ∧
      (3 : Int) < 7 ∧
      (checkWinnerStatic vertFourBoard 2 3 = true ↔
        checkWinner vertFourBoard 2 3 ≠ none) :=
  ⟨by decide, by decide, by decide, by decide, by decide,
    checkWinnerStatic_equiv vertFourBoard 2 3 (by decide) (by decide) (by decide)
      (by decide) (by decide)⟩

end Connect4
